import Mathlib

/-!
Shallow embedding of the template-processing core of the
publication-style-config-server repository
(src/services/template_processor.py, class TemplateProcessor).

Python strings are modelled as Lean `String` (with helper functions on the
underlying `List Char` mirroring the CPython behaviour of `str.strip`,
`str.split`, `str.lower`, `str.title`, `str.replace` for the single-character
arguments actually used by the source).  Python dicts that are used with
string/int keys and insertion-order iteration are modelled as association
lists together with an assignment operation `dictSet` that updates the first
occurrence of the key in place (keeping insertion order) or appends.
The regular expressions used by the processor are embedded as deterministic
scanners implementing Python `re.finditer` semantics (leftmost,
non-overlapping matches) for the concrete patterns of the source.
`int(...)` conversions that can raise are modelled with `Option`/`Except`.
-/

namespace TemplateProc

/-- Characters treated as whitespace by Python `str.strip()` / `str.split()` /
regex `\s` (the ASCII subset, which is all the claims exercise). -/
def isPySpace (c : Char) : Bool :=
  c == ' ' || c == '\t' || c == '\n' || c == '\r' || c == '\x0b' || c == '\x0c'

/-- Drop leading Python whitespace. -/
def trimLeft (l : List Char) : List Char := l.dropWhile isPySpace

/-- Drop trailing Python whitespace. -/
def trimRight (l : List Char) : List Char := (l.reverse.dropWhile isPySpace).reverse

/-- Python `str.strip()` on the underlying character list. -/
def pyStripL (l : List Char) : List Char := trimRight (trimLeft l)

/-- Python `str.strip()`. -/
def pyStrip (s : String) : String := ⟨pyStripL s.data⟩

/-- Worker for Python `str.split(sep)` with a one-character separator:
splits on every occurrence, keeping empty pieces (so the result is never
empty). -/
def splitChGo (sep : Char) : List Char → List Char → List (List Char)
  | [], acc => [acc]
  | c :: cs, acc =>
    if c = sep then acc :: splitChGo sep cs []
    else splitChGo sep cs (acc ++ [c])

/-- Python `content.split('\n')`. -/
def pySplitNL (s : String) : List String :=
  (splitChGo '\n' s.data []).map fun l => ⟨l⟩

/-- Worker for Python `str.split()` (no separator): whitespace runs separate
tokens and no empty tokens are produced. -/
def splitWSGo : List Char → List Char → List (List Char)
  | [], acc => if acc.isEmpty then [] else [acc]
  | c :: cs, acc =>
    if isPySpace c then
      (if acc.isEmpty then splitWSGo cs [] else acc :: splitWSGo cs [])
    else splitWSGo cs (acc ++ [c])

/-- Python `s.split()` (token list). -/
def pySplitWS (s : String) : List (List Char) := splitWSGo s.data []

/-- Python `len(s.split())`, the word count used throughout the processor. -/
def wordCount (s : String) : Nat := (pySplitWS s).length

/-- Python `'\n'.join(xs)`. -/
def pyJoinNL : List String → String
  | [] => ""
  | [x] => x
  | x :: xs => x ++ "\n" ++ pyJoinNL xs

/-- Python `s.lower()` (ASCII case mapping, which is all the source needs). -/
def pyLower (s : String) : String := ⟨s.data.map Char.toLower⟩

/-- Python `s.lstrip('#')`. -/
def lstripHash (s : String) : String := ⟨s.data.dropWhile (fun c => c == '#')⟩

/-- Python `s.startswith('#')`. -/
def startsWithHash (s : String) : Bool :=
  match s.data with
  | c :: _ => c == '#'
  | [] => false

/-- Python `s.replace(' ', '_')`. -/
def underscores (s : String) : String :=
  ⟨s.data.map fun c => if c = ' ' then '_' else c⟩

/-- Python `s.replace('_', ' ')`. -/
def underscoresToSpaces (s : String) : String :=
  ⟨s.data.map fun c => if c = '_' then ' ' else c⟩

/-- Worker for Python `s.title()`: upper-case every alphabetic character that
follows a non-alphabetic one, lower-case the other alphabetic characters. -/
def titleGo : Bool → List Char → List Char
  | _, [] => []
  | prevAlpha, c :: cs =>
    (if c.isAlpha then (if prevAlpha then c.toLower else c.toUpper) else c)
      :: titleGo c.isAlpha cs

/-- Python `s.title()`. -/
def pyTitle (s : String) : String := ⟨titleGo false s.data⟩

/-- Python dict assignment `d[k] = v` on an insertion-ordered association
list: replaces the value at the first occurrence of the key in place, else
appends a new binding. -/
def dictSet {κ ν : Type} [DecidableEq κ] : List (κ × ν) → κ → ν → List (κ × ν)
  | [], k, v => [(k, v)]
  | (k0, v0) :: rest, k, v =>
    if k0 = k then (k, v) :: rest else (k0, v0) :: dictSet rest k v

/-- Python dict key-membership test `k in d` for the association-list model. -/
def hasKey {ν : Type} (d : List (String × ν)) (k : String) : Bool :=
  d.any fun p => p.1 == k

/-- Value of a digit character. -/
def digitVal (c : Char) : Nat := c.toNat - ('0').toNat

/-- Numeric value of a digit string. -/
def digitsToNat (l : List Char) : Nat := l.foldl (fun acc c => acc * 10 + digitVal c) 0

/-- Python `int(s)` restricted to the token shapes the processor feeds it
(strings of decimal digits): succeeds exactly on a non-empty all-digit
string; `none` models the `ValueError` raise. -/
def parseIntDigits (l : List Char) : Option Int :=
  if l ≠ [] ∧ l.all Char.isDigit then some (Int.ofNat (digitsToNat l)) else none

/-- A citation token that `int(tok.strip())` accepts: strips to a non-empty
all-digit string. -/
def validTok (l : List Char) : Prop :=
  pyStripL l ≠ [] ∧ (pyStripL l).all Char.isDigit = true

/-! ## Template registry (`TemplateProcessor._initialize` of templates) -/

/-- One template configuration dictionary (fixed shape shared by the four
registry entries). -/
structure Template where
  name : String
  sections : List String
  required_sections : List String
  section_order : Bool
  max_abstract_words : Nat
  reference_format : String
deriving DecidableEq

/-- The template registry `self.templates` (insertion-ordered). -/
def templates : List (String × Template) :=
  [ (("article"),
      { name := "Research Article"
        sections := [("title"), ("authors"), ("abstract"), ("keywords"),
          ("introduction"), ("methodology"), ("results"),
          ("discussion"), ("conclusion"), ("references")]
        required_sections := [("title"), ("authors"), ("abstract")]
        section_order := true
        max_abstract_words := 250
        reference_format := "numeric" }),
    (("conference_paper"),
      { name := "Conference Paper"
        sections := [("title"), ("authors"), ("abstract"), ("keywords"),
          ("introduction"), ("approach"), ("experiments"),
          ("results"), ("conclusion"), ("references")]
        required_sections := [("title"), ("authors"), ("abstract")]
        section_order := true
        max_abstract_words := 150
        reference_format := "numeric" }),
    (("technical_report"),
      { name := "Technical Report"
        sections := [("title"), ("authors"), ("executive_summary"),
          ("introduction"), ("background"), ("analysis"),
          ("findings"), ("recommendations"), ("appendices")]
        required_sections := [("title"), ("authors"), ("executive_summary")]
        section_order := false
        max_abstract_words := 500
        reference_format := "author_year" }),
    (("thesis"),
      { name := "Thesis/Dissertation"
        sections := [("title_page"), ("abstract"), ("acknowledgments"),
          ("table_of_contents"), ("introduction"), ("literature_review"),
          ("methodology"), ("results"), ("discussion"),
          ("conclusion"), ("references"), ("appendices")]
        required_sections := [("title_page"), ("abstract"), ("introduction")]
        section_order := true
        max_abstract_words := 350
        reference_format := "author_year" }) ]

/-- Python `template_type in self.templates`. -/
def hasTemplate (t : String) : Bool := templates.any fun p => p.1 == t

/-! ## Section name normalization (`_normalize_section_name`) -/

/-- The `normalization_map` dictionary, as an association list in source
order. -/
def normalizationMap : List (String × String) :=
  [ (("abstract"), ("abstract")),
    (("introduction"), ("introduction")),
    (("background"), ("background")),
    (("literature review"), ("literature_review")),
    (("methodology"), ("methodology")),
    (("methods"), ("methodology")),
    (("approach"), ("approach")),
    (("experiments"), ("experiments")),
    (("experimental setup"), ("experiments")),
    (("results"), ("results")),
    (("findings"), ("findings")),
    (("discussion"), ("discussion")),
    (("analysis"), ("analysis")),
    (("conclusion"), ("conclusion")),
    (("conclusions"), ("conclusion")),
    (("references"), ("references")),
    (("bibliography"), ("references")),
    (("acknowledgments"), ("acknowledgments")),
    (("acknowledgements"), ("acknowledgments")),
    (("appendix"), ("appendices")),
    (("appendices"), ("appendices")) ]

/-- `_normalize_section_name`: dictionary get with the
underscore-substituted header text as default. -/
def normalizeSectionName (header : String) : String :=
  (normalizationMap.lookup header).getD (underscores header)

/-! ## Section segmentation (`_parse_content_sections`) -/

/-- Loop state of `_parse_content_sections`: the sections dict built so far,
the current section name and the accumulated content lines. -/
structure ParseState where
  sections : List (String × String)
  current : String
  buf : List String
deriving DecidableEq

/-- Flushing the accumulated buffer into the sections dict
(`sections[current_section] = '\n'.join(current_content).strip()` guarded by
`if current_content:`). -/
def flushBuf (st : ParseState) : List (String × String) :=
  if st.buf.isEmpty then st.sections
  else dictSet st.sections st.current (pyStrip (pyJoinNL st.buf))

/-- One iteration of the line loop of `_parse_content_sections`. -/
def parseLine (st : ParseState) (rawLine : String) : ParseState :=
  let line := pyStrip rawLine
  if startsWithHash line then
    let header := pyLower (pyStrip (lstripHash line))
    { sections := flushBuf st
      current := normalizeSectionName header
      buf := [] }
  else if line = "" then st
  else { st with buf := st.buf ++ [line] }

/-- `_parse_content_sections` applied to the already-split line list. -/
def parseLines (lines : List String) : List (String × String) :=
  flushBuf (lines.foldl parseLine ⟨[], ("introduction"), []⟩)

/-- `_parse_content_sections`. -/
def parseSections (content : String) : List (String × String) :=
  parseLines (pySplitNL content)

/-! ## Validation (`_validate_sections`) -/

/-- The validation-report dictionary. -/
structure ValidationResult where
  valid : Bool
  errors : List String
  warnings : List String
  missing_required : List String
  unexpected_sections : List String
deriving DecidableEq

/-- The `for required in required_sections` loop. -/
def checkRequired (secs : List (String × String)) : List String → ValidationResult → ValidationResult
  | [], v => v
  | r :: rs, v =>
    checkRequired secs rs
      (if hasKey secs r then v
       else { v with
                missing_required := v.missing_required ++ [r]
                errors := v.errors ++ [("Missing required section: " ++ r)]
                valid := false })

/-- The `for section in sections` loop (iterates the dict keys). -/
def checkUnexpected (allowed : List String) : List String → ValidationResult → ValidationResult
  | [], v => v
  | s :: ss, v =>
    checkUnexpected allowed ss
      (if allowed.contains s then v
       else { v with
                unexpected_sections := v.unexpected_sections ++ [s]
                warnings := v.warnings ++ [("Unexpected section: " ++ s)] })

/-- Python `sections['abstract']` (only evaluated under the `in` guard). -/
def dictGetStr (secs : List (String × String)) (k : String) : String :=
  (secs.lookup k).getD ""

/-- The abstract word-count check (all four registry templates carry
`max_abstract_words`, so the `'max_abstract_words' in template_config` guard
of the source is always true for descriptors of the registry). -/
def checkAbstract (secs : List (String × String)) (cfg : Template)
    (v : ValidationResult) : ValidationResult :=
  if hasKey secs ("abstract") then
    let aw := wordCount (dictGetStr secs ("abstract"))
    if aw > cfg.max_abstract_words then
      { v with warnings := v.warnings ++
          [("Abstract exceeds maximum word count: " ++ toString aw ++ "/"
              ++ toString cfg.max_abstract_words)] }
    else v
  else v

/-- `_validate_sections`. -/
def validateSections (secs : List (String × String)) (cfg : Template) : ValidationResult :=
  checkAbstract secs cfg
    (checkUnexpected cfg.sections (secs.map (·.1))
      (checkRequired secs cfg.required_sections ⟨true, [], [], [], []⟩))

/-! ## Regex scanners

Each concrete pattern of `_initialize` of formatting rules is embedded as a
deterministic matcher `matchXAt : List Char → Option (payload × List Char)`
that attempts the pattern at the head of the input (returning the payload and
the remaining input after the match), plus the generic scanner `scanF`
implementing `re.finditer`: try the matcher at every position from the left,
emit non-overlapping matches and resume after each match.  The scanner is
fuel-indexed (fuel = input length at the top-level call) so that it is
structurally recursive and computes by `decide`/`rfl`. -/

/-- Generic `re.finditer` loop.  Each emitted element is
`(start, matchedLength, payload)`. -/
def scanF {α : Type} (m : List Char → Option (α × List Char)) :
    Nat → List Char → Nat → List (Nat × Nat × α)
  | 0, _, _ => []
  | _ + 1, [], _ => []
  | fuel + 1, c :: cs, pos =>
    match m (c :: cs) with
    | some (a, rest) =>
      let len := (c :: cs).length - rest.length
      (pos, len, a) :: scanF m fuel rest (pos + len)
    | none => scanF m fuel cs (pos + 1)

/-! ### Numeric citations: pattern `\[(\d+(?:,\s*\d+)*)\]` -/

/-- Fueled parser for the tail `(?:,\s*\d+)*\]` of the numeric-citation
pattern.  On success it returns the characters of the tail that belong to
group 1 (everything consumed before the closing bracket) and the rest of the
input after the bracket. -/
def numGroups : Nat → List Char → Option (List Char × List Char)
  | _, [] => none
  | 0, c :: rest => if c = ']' then some ([], rest) else none
  | fuel + 1, c :: rest =>
    if c = ']' then some ([], rest)
    else if c = ',' then
      let sp := rest.takeWhile isPySpace
      let rest2 := rest.drop sp.length
      let d := rest2.takeWhile Char.isDigit
      if d.isEmpty then none
      else
        match numGroups fuel (rest2.drop d.length) with
        | some (tail, after) => some (',' :: (sp ++ (d ++ tail)), after)
        | none => none
    else none

/-- Matcher for `\[(\d+(?:,\s*\d+)*)\]` at the head of the input; the payload
is group 1 (the bracket's inner text). -/
def matchNumAt : List Char → Option (List Char × List Char)
  | '[' :: rest =>
    let d1 := rest.takeWhile Char.isDigit
    if d1.isEmpty then none
    else
      match numGroups rest.length (rest.drop d1.length) with
      | some (tail, after) => some (d1 ++ tail, after)
      | none => none
  | _ => none

/-- All numeric-citation matches of a section content
(`re.finditer(numeric, content)`); elements are `(start, len, group1)`. -/
def scanNumeric (s : String) : List (Nat × Nat × List Char) :=
  scanF matchNumAt s.data.length s.data 0

/-! ### Author-year citations:
pattern `\(([A-Za-z]+(?:\s+et\s+al\.)?),?\s+(\d{4})\)` -/

/-- The optional `(?:\s+et\s+al\.)?` group: transactional, returns the
consumed characters on success. -/
def matchEtAl (l : List Char) : Option (List Char × List Char) :=
  let sp1 := l.takeWhile isPySpace
  if sp1.isEmpty then none
  else
    match l.drop sp1.length with
    | 'e' :: 't' :: r3 =>
      let sp2 := r3.takeWhile isPySpace
      if sp2.isEmpty then none
      else
        match r3.drop sp2.length with
        | 'a' :: 'l' :: '.' :: r4 => some (sp1 ++ ('e' :: 't' :: sp2) ++ ['a', 'l', '.'], r4)
        | _ => none
    | _ => none

/-- Matcher for the author-year pattern at the head of the input; the payload
is `(group1 = author, group2 = year digits)`. -/
def matchAYAt : List Char → Option ((List Char × List Char) × List Char)
  | '(' :: r1 =>
    let letters := r1.takeWhile Char.isAlpha
    if letters.isEmpty then none
    else
      let r2 := r1.drop letters.length
      let (author, r5) :=
        match matchEtAl r2 with
        | some (c, r4) => (letters ++ c, r4)
        | none => (letters, r2)
      let r6 := match r5 with
        | ',' :: t => t
        | _ => r5
      let sp3 := r6.takeWhile isPySpace
      if sp3.isEmpty then none
      else
        match r6.drop sp3.length with
        | d1 :: d2 :: d3 :: d4 :: ')' :: r8 =>
          if d1.isDigit && d2.isDigit && d3.isDigit && d4.isDigit then
            some ((author, [d1, d2, d3, d4]), r8)
          else none
        | _ => none
  | _ => none

/-- All author-year citation matches of a section content. -/
def scanAY (s : String) : List (Nat × Nat × (List Char × List Char)) :=
  scanF matchAYAt s.data.length s.data 0

/-! ### Equations: patterns `\$([^$]+)\$` and `\$\$([^$]+)\$\$` -/

/-- Matcher for the inline-equation pattern `\$([^$]+)\$`. -/
def matchInlineAt : List Char → Option (List Char × List Char)
  | '$' :: rest =>
    let body := rest.takeWhile (fun c => c != '$')
    if body.isEmpty then none
    else
      match rest.drop body.length with
      | '$' :: after => some (body, after)
      | _ => none
  | _ => none

/-- Matcher for the display-equation pattern `\$\$([^$]+)\$\$`. -/
def matchDisplayAt : List Char → Option (List Char × List Char)
  | '$' :: '$' :: rest =>
    let body := rest.takeWhile (fun c => c != '$')
    if body.isEmpty then none
    else
      match rest.drop body.length with
      | '$' :: '$' :: after => some (body, after)
      | _ => none
  | _ => none

/-- All inline-equation matches of a section content. -/
def scanInline (s : String) : List (Nat × Nat × List Char) :=
  scanF matchInlineAt s.data.length s.data 0

/-- All display-equation matches of a section content. -/
def scanDisplay (s : String) : List (Nat × Nat × List Char) :=
  scanF matchDisplayAt s.data.length s.data 0

/-! ### Figure/table references: patterns `Figure\s+(\d+)` and
`Table\s+(\d+)` (case-sensitive literals) -/

/-- Matcher for a literal keyword followed by `\s+(\d+)`; payload is the
digit group. -/
def matchKwNumAt (kw : List Char) (l : List Char) : Option (List Char × List Char) :=
  if kw.isPrefixOf l then
    let r1 := l.drop kw.length
    let sp := r1.takeWhile isPySpace
    if sp.isEmpty then none
    else
      let d := (r1.drop sp.length).takeWhile Char.isDigit
      if d.isEmpty then none
      else some (d, (r1.drop sp.length).drop d.length)
  else none

/-- All `Figure\s+(\d+)` matches of a section content. -/
def scanFigure (s : String) : List (Nat × Nat × List Char) :=
  scanF (matchKwNumAt ('F' :: 'i' :: 'g' :: 'u' :: 'r' :: 'e' :: [])) s.data.length s.data 0

/-- All `Table\s+(\d+)` matches of a section content. -/
def scanTable (s : String) : List (Nat × Nat × List Char) :=
  scanF (matchKwNumAt ('T' :: 'a' :: 'b' :: 'l' :: 'e' :: [])) s.data.length s.data 0

/-! ## Extraction (`_extract_citations`, `_extract_equations`,
`_extract_references`) -/

/-- A citation dictionary: tagged `numeric` or `author_year` exactly as in
the source. -/
inductive Citation where
  | numeric (text : String) (numbers : List Int) (position : Nat × Nat)
  | authorYear (text : String) (author : String) (year : Int) (position : Nat × Nat)
deriving DecidableEq

/-- Python `match.group(0)` reconstructed from the match span. -/
def matchText (s : String) (pos len : Nat) : String :=
  ⟨(s.data.drop pos).take len⟩

/-- The `[int(n.strip()) for n in match.group(1).split(',')]` comprehension,
with each `int(...)` modelled by `Option` (`none` is the `ValueError`
raise). -/
def parseNumbersE (inner : List Char) : Except String (List Int) :=
  (splitChGo ',' inner []).mapM fun tok =>
    match parseIntDigits (pyStripL tok) with
    | some n => Except.ok n
    | none => Except.error ("invalid literal for int() with base 10: " ++ (⟨tok⟩ : String))

/-- Total variant of the comprehension (each failed parse replaced by `0`;
the theorem for C6 proves the failure branch is unreachable, so this agrees
with the faithful `parseNumbersE` on every match the scanner emits). -/
def parseNumbers (inner : List Char) : List Int :=
  (splitChGo ',' inner []).map fun tok => (parseIntDigits (pyStripL tok)).getD 0

/-- `_extract_citations` with the `int(...)` conversions modelled faithfully
as fallible: `Except.error` is a `ValueError` escaping the method. -/
def extractCitationsE (s : String) : Except String (List Citation) := do
  let nums ← (scanNumeric s).mapM fun m => do
    let ns ← parseNumbersE m.2.2
    return Citation.numeric (matchText s m.1 m.2.1) ns (m.1, m.1 + m.2.1)
  let ays ← (scanAY s).mapM fun m => do
    let y ← match parseIntDigits m.2.2.2 with
      | some y => Except.ok y
      | none => Except.error ("invalid literal for int() with base 10: " ++ (⟨m.2.2.2⟩ : String))
    return Citation.authorYear (matchText s m.1 m.2.1) (⟨m.2.2.1⟩ : String) y (m.1, m.1 + m.2.1)
  return nums ++ ays

/-- Total rendering of `_extract_citations` (the effective behaviour: the
C6 theorem proves it agrees with `extractCitationsE` on every input). -/
def extractCitations (s : String) : List Citation :=
  ((scanNumeric s).map fun m =>
    Citation.numeric (matchText s m.1 m.2.1) (parseNumbers m.2.2) (m.1, m.1 + m.2.1))
  ++ (scanAY s).map fun m =>
    Citation.authorYear (matchText s m.1 m.2.1) (⟨m.2.2.1⟩ : String)
      ((parseIntDigits m.2.2.2).getD 0) (m.1, m.1 + m.2.1)

/-- An equation dictionary. -/
structure Equation where
  type : String
  content : String
  position : Nat × Nat
  id : String
deriving DecidableEq

/-- The `for i, match in enumerate(...)` numbering of equation matches of
one type: ids are `eq_<tag>_<i+1>` with `i` counting from the given start. -/
def numberEqs (tag : String) : Nat → List (Nat × Nat × List Char) → List Equation
  | _, [] => []
  | i, m :: ms =>
    { type := tag
      content := (⟨m.2.2⟩ : String)
      position := (m.1, m.1 + m.2.1)
      id := ("eq_" ++ tag ++ "_") ++ toString (i + 1) } :: numberEqs tag (i + 1) ms

/-- `_extract_equations`: inline matches first, then display matches, each
numbered independently from 1. -/
def extractEquations (s : String) : List Equation :=
  numberEqs ("inline") 0 (scanInline s) ++ numberEqs ("display") 0 (scanDisplay s)

/-- A figure/table reference dictionary. -/
structure RefMark where
  type : String
  number : Int
  text : String
  position : Nat × Nat
deriving DecidableEq

/-- `_extract_references` (the digit group always parses, so the `getD 0`
default is unreachable). -/
def extractReferences (s : String) : List RefMark :=
  ((scanFigure s).map fun m =>
    { type := ("figure"), number := (parseIntDigits m.2.2).getD 0
      text := matchText s m.1 m.2.1, position := (m.1, m.1 + m.2.1) })
  ++ (scanTable s).map fun m =>
    { type := ("table"), number := (parseIntDigits m.2.2).getD 0
      text := matchText s m.1 m.2.1, position := (m.1, m.1 + m.2.1) }

/-! ## Formatting pass (`_apply_formatting`) -/

/-- `_apply_text_formatting`: each `re.sub` replacement template re-emits the
matched text verbatim (bold `\*\*([^*]+)\*\*` is replaced by `**\1**`, italic
by `*\1*`, underline by `_\1_`), so the pass is the identity on every
input. -/
def applyTextFormatting (content : String) : String := content

/-- One annotated section dictionary. -/
structure FormattedSection where
  content : String
  word_count : Nat
  citations : List Citation
  equations : List Equation
  references : List RefMark
  formatting_applied : Bool
deriving DecidableEq

/-- `_apply_formatting`: annotate every section (dict comprehension over the
insertion-ordered section map). -/
def applyFormatting (sections : List (String × String)) (_style : String) :
    List (String × FormattedSection) :=
  sections.map fun p =>
    let formatted := applyTextFormatting p.2
    (p.1,
      { content := formatted
        word_count := wordCount formatted
        citations := extractCitations formatted
        equations := extractEquations formatted
        references := extractReferences formatted
        formatting_applied := true })

/-! ## Aggregation (`_generate_table_of_contents`, `_process_citations`,
`_calculate_content_statistics`) -/

/-- One table-of-contents entry (the Python key `section` is spelled `sect`
here because `section` is reserved in Lean). -/
structure TocEntry where
  sect : String
  title : String
  page : Nat
  word_count : Nat
deriving DecidableEq

/-- `_generate_table_of_contents`. -/
def generateToc (secs : List (String × FormattedSection)) (cfg : Template) :
    List TocEntry :=
  cfg.sections.enum.foldl
    (fun acc p =>
      if hasKey secs p.2 then
        acc ++ [{ sect := p.2
                  title := pyTitle (underscoresToSpaces p.2)
                  page := p.1 + 1
                  word_count := match secs.lookup p.2 with
                    | some fs => fs.word_count
                    | none => 0 }]
      else acc)
    []

/-- Key of the `unique_citations` dict: an `int` for numeric citations, the
string `f"{author}_{year}"` for author-year ones. -/
inductive CitKey where
  | num (n : Int)
  | ay (k : String)
deriving DecidableEq

/-- One step of the deduplication loop of `_process_citations`. -/
def addCitation (m : List (CitKey × Citation)) (c : Citation) :
    List (CitKey × Citation) :=
  match c with
  | .numeric _ nums _ => nums.foldl (fun m n => dictSet m (CitKey.num n) c) m
  | .authorYear _ a y _ => dictSet m (CitKey.ay (a ++ "_" ++ toString y)) c

/-- The `unique_citations` dict built by `_process_citations`
(last write wins, insertion order kept). -/
def uniqueCitations (all : List Citation) : List (CitKey × Citation) :=
  all.foldl addCitation []

/-- The flattened `all_citations` list (section insertion order). -/
def allCitations (secs : List (String × FormattedSection)) : List Citation :=
  secs.foldl (fun acc p => acc ++ p.2.citations) []

/-- The citation summary dictionary. -/
structure CitationInfo where
  total_citations : Nat
  unique_citations : Nat
  citation_style : String
  citations : List Citation
deriving DecidableEq

/-- `_process_citations`. -/
def processCitations (secs : List (String × FormattedSection)) (style : String) :
    CitationInfo :=
  let all := allCitations secs
  let uniq := uniqueCitations all
  { total_citations := all.length
    unique_citations := uniq.length
    citation_style := style
    citations := uniq.map (·.2) }

/-- The statistics dictionary. -/
structure Statistics where
  total_words : Nat
  total_sections : Nat
  total_citations : Nat
  total_equations : Nat
  total_references : Nat
  section_breakdown : List (String × Nat)
deriving DecidableEq

/-- `_calculate_content_statistics`. -/
def calculateStatistics (secs : List (String × FormattedSection)) : Statistics :=
  { total_words := (secs.map fun p => p.2.word_count).sum
    total_sections := secs.length
    total_citations := (secs.map fun p => p.2.citations.length).sum
    total_equations := (secs.map fun p => p.2.equations.length).sum
    total_references := (secs.map fun p => p.2.references.length).sum
    section_breakdown := secs.map fun p => (p.1, p.2.word_count) }

/-! ## Top-level request processing (`process_content`) -/

/-- The returned processing dictionary.  The `metadata` timestamp and uuid
are impure (wall clock / randomness) and are not modelled; the deterministic
`template_config` member of the metadata is kept. -/
structure ProcessingResult where
  template_type : String
  style_name : String
  sections : List (String × FormattedSection)
  table_of_contents : List TocEntry
  citations : CitationInfo
  validation : ValidationResult
  statistics : Statistics
  template_config : Template
deriving DecidableEq

/-- `process_content`: raises `ValueError` (modelled as `Except.error`) for
an unregistered template type, before any parsing; otherwise runs the
pipeline and returns the assembled result. -/
def processContent (content style_name template_type : String) :
    Except String ProcessingResult :=
  match templates.lookup template_type with
  | none => Except.error ("Unsupported template type: " ++ template_type)
  | some cfg =>
    let sections := parseSections content
    let validation_result := validateSections sections cfg
    let formatted := applyFormatting sections style_name
    let toc := generateToc formatted cfg
    let citation_info := processCitations formatted style_name
    let statistics := calculateStatistics formatted
    Except.ok
      { template_type := template_type
        style_name := style_name
        sections := formatted
        table_of_contents := toc
        citations := citation_info
        validation := validation_result
        statistics := statistics
        template_config := cfg }

/-! ## Object-identity model of the registry (`get_template`, claim C5)

`get_template` returns `self.templates[name].copy()` — a fresh top-level
dict whose values are the *same* objects as the stored descriptor's values.
The mutable nested values are the `sections` and `required_sections` lists;
they are modelled as references (indices) into a heap of lists, so that
in-place list mutation and the sharing introduced by the shallow copy are
observable.  The shallow copy itself is a plain record value (top-level
independence is exactly what `dict.copy()` guarantees), carrying the shared
references. -/

/-- Heap of the eight list objects allocated by the registry initializer. -/
structure ListHeap where
  cells : List (List String)
deriving DecidableEq

/-- Dereference a list object. -/
def readCell (h : ListHeap) (r : Nat) : List String := (h.cells.get? r).getD []

/-- In-place mutation of a list object (e.g. `lst.append`, `lst[i] = ...`,
`lst.clear`), expressed as replacing the cell's contents. -/
def writeCell (h : ListHeap) (r : Nat) (v : List String) : ListHeap :=
  ⟨h.cells.set r v⟩

/-- A template descriptor dict as an object: nested lists held by
reference. -/
structure TemplateObj where
  name : String
  sectionsRef : Nat
  requiredRef : Nat
  section_order : Bool
  max_abstract_words : Nat
  reference_format : String
deriving DecidableEq

/-- The heap produced by the registry initializer. -/
def initHeap : ListHeap :=
  ⟨[ [("title"), ("authors"), ("abstract"), ("keywords"), ("introduction"),
      ("methodology"), ("results"), ("discussion"), ("conclusion"), ("references")],
     [("title"), ("authors"), ("abstract")],
     [("title"), ("authors"), ("abstract"), ("keywords"), ("introduction"),
      ("approach"), ("experiments"), ("results"), ("conclusion"), ("references")],
     [("title"), ("authors"), ("abstract")],
     [("title"), ("authors"), ("executive_summary"), ("introduction"), ("background"),
      ("analysis"), ("findings"), ("recommendations"), ("appendices")],
     [("title"), ("authors"), ("executive_summary")],
     [("title_page"), ("abstract"), ("acknowledgments"), ("table_of_contents"),
      ("introduction"), ("literature_review"), ("methodology"), ("results"),
      ("discussion"), ("conclusion"), ("references"), ("appendices")],
     [("title_page"), ("abstract"), ("introduction")] ]⟩

/-- The stored descriptor objects (`self.templates`). -/
def templatesObj : List (String × TemplateObj) :=
  [ (("article"),
      { name := "Research Article", sectionsRef := 0, requiredRef := 1
        section_order := true, max_abstract_words := 250, reference_format := "numeric" }),
    (("conference_paper"),
      { name := "Conference Paper", sectionsRef := 2, requiredRef := 3
        section_order := true, max_abstract_words := 150, reference_format := "numeric" }),
    (("technical_report"),
      { name := "Technical Report", sectionsRef := 4, requiredRef := 5
        section_order := false, max_abstract_words := 500, reference_format := "author_year" }),
    (("thesis"),
      { name := "Thesis/Dissertation", sectionsRef := 6, requiredRef := 7
        section_order := true, max_abstract_words := 350, reference_format := "author_year" }) ]

/-- `get_template`: the shallow `.copy()` of the stored dict — a fresh
record value sharing the nested list references (`None` for unknown
names; the `metadata` key is added only to the copy and does not affect the
registry). -/
def getTemplate (name : String) : Option TemplateObj := templatesObj.lookup name

/-- The `sections` list a caller observes when looking the template up. -/
def observeSections (h : ListHeap) (name : String) : List String :=
  match getTemplate name with
  | some t => readCell h t.sectionsRef
  | none => []

/-- The `required_sections` list a caller observes when looking the template
up. -/
def observeRequired (h : ListHeap) (name : String) : List String :=
  match getTemplate name with
  | some t => readCell h t.requiredRef
  | none => []

/-- The heap cell the returned copy's `sections` value points at. -/
def sectionsRefOf (name : String) : Nat :=
  match getTemplate name with
  | some t => t.sectionsRef
  | none => 0

/-- The heap cell the returned copy's `required_sections` value points at. -/
def requiredRefOf (name : String) : Nat :=
  match getTemplate name with
  | some t => t.requiredRef
  | none => 0

/-- A line the segmenter treats as a section header: after stripping, it
starts with the header marker. -/
def isHeaderLine (line : String) : Bool := startsWithHash (pyStrip line)

/-- The stripped non-blank lines of a document, in order: exactly the lines
the segmenter accumulates into section bodies. -/
def nonblankStripped (lines : List String) : List String :=
  (lines.map pyStrip).filter fun s => !(s == "")

/-! # Theorems -/

/-- C1: a template type outside the registry makes `process_content` fail
with the `Unsupported template type` error (no result of any kind is
produced), and a registered template type never produces that error: the
pipeline returns a full result. -/
theorem claim_C1 (content style t : String) :
    (hasTemplate t = false →
      processContent content style t =
        Except.error (("Unsupported template type: ") ++ t)) ∧
    (hasTemplate t = true →
      ∃ r, processContent content style t = Except.ok r) := by
  constructor
  · intro h
    simp only [hasTemplate, templates, List.any_cons, List.any_nil,
      Bool.or_eq_false_iff, beq_eq_false_iff_ne, ne_eq] at h
    obtain ⟨h1, h2, h3, h4, -⟩ := h
    have g1 : (t == ("article" : String)) = false :=
      beq_eq_false_iff_ne.mpr fun hh => h1 hh.symm
    have g2 : (t == ("conference_paper" : String)) = false :=
      beq_eq_false_iff_ne.mpr fun hh => h2 hh.symm
    have g3 : (t == ("technical_report" : String)) = false :=
      beq_eq_false_iff_ne.mpr fun hh => h3 hh.symm
    have g4 : (t == ("thesis" : String)) = false :=
      beq_eq_false_iff_ne.mpr fun hh => h4 hh.symm
    simp [processContent, templates, List.lookup, g1, g2, g3, g4]
  · intro h
    simp only [hasTemplate, templates, List.any_cons, List.any_nil,
      Bool.or_eq_true, beq_iff_eq] at h
    rcases h with h | h | h | (h | h)
    all_goals first
      | (subst h; exact ⟨_, rfl⟩)
      | (simp at h)

/-- Witness for C1 at concrete inputs: the unknown type `nope` errors, the
registered type `article` succeeds. -/
theorem claim_C1_witness :
    (processContent ("x") ("ieee") ("nope") =
      Except.error (("Unsupported template type: ") ++ ("nope"))) ∧
    (∃ r, processContent ("# Title\nT") ("ieee") ("article") = Except.ok r) :=
  ⟨(claim_C1 ("x") ("ieee") ("nope")).1 (by decide),
   (claim_C1 ("# Title\nT") ("ieee") ("article")).2 (by decide)⟩

/-- C4: in a document containing `[12, 7]`, the summary dict has the two
entries keyed 12 and 7 (and the raw count is the single match); when `[7]`
occurs again later, the key set is unchanged, the entry stored under 7 is
the later `[7]` citation (last write wins), and `total_citations` still
counts the two raw matches, untouched by the overwrite. -/
theorem claim_C4 :
    ((uniqueCitations (allCitations (applyFormatting
        (parseSections ("See [12, 7] today.")) ("ieee")))).map Prod.fst =
      [CitKey.num 12, CitKey.num 7]) ∧
    ((processCitations (applyFormatting
        (parseSections ("See [12, 7] today.")) ("ieee")) ("ieee")).total_citations = 1) ∧
    ((uniqueCitations (allCitations (applyFormatting
        (parseSections ("See [12, 7] today.\nAlso [7] again.")) ("ieee")))).map Prod.fst =
      [CitKey.num 12, CitKey.num 7]) ∧
    ((uniqueCitations (allCitations (applyFormatting
        (parseSections ("See [12, 7] today.\nAlso [7] again.")) ("ieee")))).lookup
        (CitKey.num 7) =
      some (Citation.numeric ("[7]") [7] (24, 27))) ∧
    ((processCitations (applyFormatting
        (parseSections ("See [12, 7] today.\nAlso [7] again.")) ("ieee"))
        ("ieee")).total_citations = 2) := by
  decide

/-- C5 counterexample: the claim says no caller mutation of the returned
value can be observed through a later lookup; but the returned copy shares
the `sections` list object (heap cell 0) with the stored `article`
descriptor, and mutating that list in place changes what a later
`get_template` of the same name observes. -/
theorem claim_C5_cex :
    ((getTemplate ("article")).map TemplateObj.sectionsRef = some 0) ∧
    (observeSections (writeCell initHeap 0 [("hacked")]) ("article") = [("hacked")]) ∧
    (observeSections initHeap ("article") ≠ [("hacked")]) := by
  decide

/-- C5 amended: `get_template` returns a *shallow* copy — replacing
top-level entries of the returned dict (such as the added `metadata` key)
cannot affect the registry, but the nested `sections` and
`required_sections` lists are shared by reference, so in-place mutation of
either list through the returned copy is observed by every later lookup of
the same name. -/
theorem claim_C5_amended (v w : List String) :
    (observeSections (writeCell initHeap (sectionsRefOf ("article")) v) ("article") = v) ∧
    (observeRequired (writeCell initHeap (requiredRefOf ("article")) w) ("article") = w) := by
  constructor
  · simp [observeSections, sectionsRefOf, getTemplate, templatesObj, List.lookup,
      writeCell, readCell, initHeap, List.set]
  · simp [observeRequired, requiredRefOf, getTemplate, templatesObj, List.lookup,
      writeCell, readCell, initHeap, List.set]

/-! ## Validator lemmas (C2) -/

/-- Closed form of the required-sections loop: it appends the absent
required names to `missing_required`, one error string each, and conjoins
presence of all of them onto `valid`. -/
theorem checkRequired_spec (secs : List (String × String)) :
    ∀ (rs : List String) (v : ValidationResult),
      checkRequired secs rs v =
        { v with
            missing_required :=
              v.missing_required ++ rs.filter (fun r => !hasKey secs r)
            errors :=
              v.errors ++ (rs.filter (fun r => !hasKey secs r)).map
                (fun r => ("Missing required section: ") ++ r)
            valid := v.valid && rs.all (fun r => hasKey secs r) } := by
  intro rs
  induction rs with
  | nil => intro v; simp [checkRequired]
  | cons r rs ih =>
    intro v
    by_cases h : hasKey secs r = true
    · simp [checkRequired, h, ih]
    · simp only [Bool.not_eq_true] at h
      simp [checkRequired, h, ih, List.append_assoc]

/-- The unexpected-sections loop never touches `valid`, `errors` or
`missing_required`. -/
theorem checkUnexpected_frame (allowed : List String) :
    ∀ (ss : List String) (v : ValidationResult),
      (checkUnexpected allowed ss v).valid = v.valid ∧
      (checkUnexpected allowed ss v).errors = v.errors ∧
      (checkUnexpected allowed ss v).missing_required = v.missing_required := by
  intro ss
  induction ss with
  | nil => intro v; simp [checkUnexpected]
  | cons s ss ih =>
    intro v
    by_cases h : s ∈ allowed
    · simp [checkUnexpected, h, ih]
    · simp [checkUnexpected, h, ih]

/-- The abstract word-count check never touches `valid`, `errors` or
`missing_required`. -/
theorem checkAbstract_frame (secs : List (String × String)) (cfg : Template)
    (v : ValidationResult) :
    (checkAbstract secs cfg v).valid = v.valid ∧
    (checkAbstract secs cfg v).errors = v.errors ∧
    (checkAbstract secs cfg v).missing_required = v.missing_required := by
  unfold checkAbstract
  by_cases h1 : hasKey secs ("abstract") = true
  · simp only [h1, if_true]
    by_cases h2 : wordCount (dictGetStr secs ("abstract")) > cfg.max_abstract_words
    · simp [h2]
    · simp [h2]
  · simp [h1]

/-- C2: the validity flag is false exactly when some required section is
absent from the segmented map; the absent required names (in order) are
`missing_required`, and the error list records exactly one message per
absent required name — so unexpected sections and abstract word-count
overage (which only append to `warnings`) can never invalidate. -/
theorem claim_C2 (secs : List (String × String)) (cfg : Template) :
    ((validateSections secs cfg).valid = false ↔
      ∃ r ∈ cfg.required_sections, hasKey secs r = false) ∧
    ((validateSections secs cfg).missing_required =
      cfg.required_sections.filter (fun r => !hasKey secs r)) ∧
    ((validateSections secs cfg).errors =
      (cfg.required_sections.filter (fun r => !hasKey secs r)).map
        (fun r => ("Missing required section: ") ++ r)) := by
  have hua := checkUnexpected_frame cfg.sections (secs.map (·.1))
    (checkRequired secs cfg.required_sections ⟨true, [], [], [], []⟩)
  have hab := checkAbstract_frame secs cfg
    (checkUnexpected cfg.sections (secs.map (·.1))
      (checkRequired secs cfg.required_sections ⟨true, [], [], [], []⟩))
  unfold validateSections
  rw [hab.1, hab.2.1, hab.2.2, hua.1, hua.2.1, hua.2.2,
    checkRequired_spec secs cfg.required_sections]
  refine ⟨?_, by simp, by simp⟩
  simp only [Bool.true_and, List.nil_append]
  constructor
  · intro h
    have := List.all_eq_false.mp h
    obtain ⟨r, hr, hpr⟩ := this
    exact ⟨r, hr, by simpa using hpr⟩
  · rintro ⟨r, hr, hpr⟩
    exact List.all_eq_false.mpr ⟨r, hr, by simp [hpr]⟩

/-- Witness for C2 at a concrete input: a map missing `authors` under the
`article` template is invalid with exactly that name recorded, even while
an unexpected section is present. -/
theorem claim_C2_witness :
    ((validateSections [(("title"), ("T")), (("abstract"), ("A")), (("weird"), ("w"))]
        { name := "Research Article"
          sections := [("title"), ("authors"), ("abstract"), ("keywords"),
            ("introduction"), ("methodology"), ("results"),
            ("discussion"), ("conclusion"), ("references")]
          required_sections := [("title"), ("authors"), ("abstract")]
          section_order := true
          max_abstract_words := 250
          reference_format := "numeric" }).valid = false ↔
      ∃ r ∈ [("title"), ("authors"), ("abstract")],
        hasKey [(("title"), ("T")), (("abstract"), ("A")), (("weird"), ("w"))] r = false) :=
  (claim_C2 [(("title"), ("T")), (("abstract"), ("A")), (("weird"), ("w"))] _).1

/-! ## Equation numbering lemmas (C7) -/

/-- Element `k` of the numbered match list, when it exists, carries the
sequential id computed from the enumeration start. -/
theorem numberEqs_get (tag : String) :
    ∀ (ms : List (Nat × Nat × List Char)) (i k : Nat),
      (numberEqs tag i ms).get? k =
        (ms.get? k).map fun m =>
          { type := tag
            content := (⟨m.2.2⟩ : String)
            position := (m.1, m.1 + m.2.1)
            id := (("eq_") ++ tag ++ ("_")) ++ toString (i + k + 1) } := by
  intro ms
  induction ms with
  | nil => intro i k; simp [numberEqs]
  | cons m ms ih =>
    intro i k
    cases k with
    | zero => simp [numberEqs]
    | succ k =>
      have harith : i + 1 + k + 1 = i + (k + 1) + 1 := by omega
      simp only [numberEqs, List.get?_cons_succ]
      rw [ih (i + 1) k, harith]

/-- Every equation emitted by the numbering pass carries its tag as type. -/
theorem numberEqs_type (tag : String) :
    ∀ (ms : List (Nat × Nat × List Char)) (i : Nat) (e : Equation),
      e ∈ numberEqs tag i ms → e.type = tag := by
  intro ms
  induction ms with
  | nil => intro i e he; simp [numberEqs] at he
  | cons m ms ih =>
    intro i e he
    simp only [numberEqs, List.mem_cons] at he
    rcases he with rfl | he
    · rfl
    · exact ih (i + 1) e he

/-- The inline-typed equations of a section are exactly the numbered inline
matches, in order. -/
theorem extractEquations_inline (s : String) :
    (extractEquations s).filter (fun e => e.type == ("inline")) =
      numberEqs ("inline") 0 (scanInline s) := by
  unfold extractEquations
  rw [List.filter_append]
  have h1 : (numberEqs ("inline") 0 (scanInline s)).filter
      (fun e => e.type == ("inline")) = numberEqs ("inline") 0 (scanInline s) := by
    apply List.filter_eq_self.mpr
    intro e he
    simp [numberEqs_type ("inline") (scanInline s) 0 e he]
  have h2 : (numberEqs ("display") 0 (scanDisplay s)).filter
      (fun e => e.type == ("inline")) = [] := by
    apply List.filter_eq_nil_iff.mpr
    intro e he
    simp [numberEqs_type ("display") (scanDisplay s) 0 e he]
  rw [h1, h2, List.append_nil]

/-- C7: the `k`-th inline equation of any section content carries the id
`eq_inline_<k+1>` (per-type, 1-based numbering computed per extraction
call), and since extraction runs once per section the numbering restarts in
every section: the concrete two-section document gives each section one
equation named `eq_inline_1`. -/
theorem claim_C7 :
    (∀ (content : String) (k : Nat) (e : Equation),
        ((extractEquations content).filter (fun x => x.type == ("inline"))).get? k =
          some e →
        e.id = ("eq_inline_") ++ toString (k + 1)) ∧
    ((applyFormatting (parseSections ("# Abstract\nx $a$ y\n# Introduction\nz $b$ w"))
        ("ieee")).map (fun p => (p.1, p.2.equations.map Equation.id)) =
      [(("abstract"), [("eq_inline_1")]), (("introduction"), [("eq_inline_1")])]) := by
  constructor
  · intro content k e he
    rw [extractEquations_inline, numberEqs_get] at he
    cases hm : (scanInline content).get? k with
    | none => rw [hm] at he; simp at he
    | some m =>
      rw [hm] at he
      simp only [Option.map, Option.some.injEq] at he
      rw [← he]
      show (("eq_") ++ ("inline") ++ ("_")) ++ toString (0 + k + 1) =
        ("eq_inline_") ++ toString (k + 1)
      have h0 : 0 + k + 1 = k + 1 := by omega
      have hs : (("eq_") ++ ("inline")) ++ ("_") = ("eq_inline_") := by decide
      rw [h0, hs]
  · decide

/-- Witness for C7 at a concrete input: the single inline equation of a
section is numbered `eq_inline_1`. -/
theorem claim_C7_witness :
    (⟨("inline"), ("a"), (2, 5), ("eq_inline_1")⟩ : Equation).id =
      ("eq_inline_") ++ toString (0 + 1) :=
  claim_C7.1 ("u $a$ v") 0 ⟨("inline"), ("a"), (2, 5), ("eq_inline_1")⟩ (by decide)

/-! ## List and string toolbox -/

/-- takeWhile over an append whose first part satisfies the predicate. -/
theorem takeWhile_append_all {p : Char → Bool} :
    ∀ (xs : List Char), (∀ c ∈ xs, p c = true) → ∀ ys : List Char,
      (xs ++ ys).takeWhile p = xs ++ ys.takeWhile p := by
  intro xs
  induction xs with
  | nil => intro h ys; simp
  | cons c cs ih =>
    intro h ys
    have hc : p c = true := h c (by simp)
    simp only [List.cons_append, List.takeWhile_cons, hc, if_true]
    rw [ih (fun d hd => h d (List.mem_cons_of_mem c hd)) ys]

/-- dropWhile over an append whose first part satisfies the predicate. -/
theorem dropWhile_append_all {p : Char → Bool} :
    ∀ (xs : List Char), (∀ c ∈ xs, p c = true) → ∀ ys : List Char,
      (xs ++ ys).dropWhile p = ys.dropWhile p := by
  intro xs
  induction xs with
  | nil => intro h ys; simp
  | cons c cs ih =>
    intro h ys
    have hc : p c = true := h c (by simp)
    simp only [List.cons_append, List.dropWhile_cons, hc, if_true]
    exact ih (fun d hd => h d (List.mem_cons_of_mem c hd)) ys

/-- The first element surviving dropWhile falsifies the predicate. -/
theorem dropWhile_head_false {p : Char → Bool} :
    ∀ (l : List Char) (c : Char) (cs : List Char),
      l.dropWhile p = c :: cs → p c = false := by
  intro l
  induction l with
  | nil => intro c cs h; simp at h
  | cons a as ih =>
    intro c cs h
    by_cases ha : p a = true
    · rw [List.dropWhile_cons, if_pos ha] at h
      exact ih c cs h
    · rw [List.dropWhile_cons, if_neg ha] at h
      cases h
      simpa using ha

/-- dropWhile is idempotent. -/
theorem dropWhile_idem {p : Char → Bool} (l : List Char) :
    (l.dropWhile p).dropWhile p = l.dropWhile p := by
  cases h : l.dropWhile p with
  | nil => simp
  | cons c cs =>
    have hc := dropWhile_head_false l c cs h
    rw [List.dropWhile_cons, if_neg (by simp [hc])]

/-- dropWhile removes a prefix of the list. -/
theorem exists_prefix_dropWhile {p : Char → Bool} :
    ∀ (l : List Char), ∃ t, l = t ++ l.dropWhile p := by
  intro l
  induction l with
  | nil => exact ⟨[], rfl⟩
  | cons c cs ih =>
    by_cases h : p c = true
    · obtain ⟨t, ht⟩ := ih
      refine ⟨c :: t, ?_⟩
      rw [List.dropWhile_cons, if_pos h, List.cons_append, ← ht]
    · exact ⟨[], by rw [List.dropWhile_cons, if_neg h]; simp⟩

/-- Trailing trim is idempotent. -/
theorem trimRight_idem (m : List Char) : trimRight (trimRight m) = trimRight m := by
  unfold trimRight
  rw [List.reverse_reverse, dropWhile_idem]

/-- Trailing trim keeps a prefix of the list. -/
theorem trimRight_prefix (m : List Char) : ∃ t, m = trimRight m ++ t := by
  obtain ⟨t, ht⟩ := exists_prefix_dropWhile (p := isPySpace) m.reverse
  refine ⟨t.reverse, ?_⟩
  have h2 := congrArg List.reverse ht
  rw [List.reverse_reverse, List.reverse_append] at h2
  exact h2

/-- Python strip is idempotent (character-list level). -/
theorem pyStripL_idem (l : List Char) : pyStripL (pyStripL l) = pyStripL l := by
  unfold pyStripL
  have stepA : trimLeft (trimRight (trimLeft l)) = trimRight (trimLeft l) := by
    cases hR : trimRight (trimLeft l) with
    | nil => simp [trimLeft]
    | cons c cs =>
      obtain ⟨t, ht⟩ := trimRight_prefix (trimLeft l)
      rw [hR] at ht
      have hpc : isPySpace c = false := by
        apply dropWhile_head_false l c (cs ++ t)
        show trimLeft l = c :: (cs ++ t)
        rw [ht]; simp
      unfold trimLeft
      rw [List.dropWhile_cons, if_neg (by simp [hpc])]
  rw [stepA, trimRight_idem]

/-- Python strip is idempotent. -/
theorem pyStrip_idem (s : String) : pyStrip (pyStrip s) = pyStrip s := by
  unfold pyStrip
  rw [show ((⟨pyStripL s.data⟩ : String)).data = pyStripL s.data from rfl,
    pyStripL_idem]

/-- Splitting consumes a separator-free prefix up to the first separator. -/
theorem splitChGo_append_sep (sep : Char) :
    ∀ (xs : List Char), (∀ c ∈ xs, c ≠ sep) → ∀ (ys acc : List Char),
      splitChGo sep (xs ++ sep :: ys) acc =
        (acc ++ xs) :: splitChGo sep ys [] := by
  intro xs
  induction xs with
  | nil => intro h ys acc; simp [splitChGo]
  | cons c cs ih =>
    intro h ys acc
    have hc : ¬(c = sep) := h c (by simp)
    simp only [List.cons_append, splitChGo, if_neg hc, List.append_eq]
    rw [ih (fun d hd => h d (List.mem_cons_of_mem c hd)) ys (acc ++ [c])]
    simp

/-- Splitting a separator-free list yields a single piece. -/
theorem splitChGo_no_sep (sep : Char) :
    ∀ (xs : List Char), (∀ c ∈ xs, c ≠ sep) → ∀ acc : List Char,
      splitChGo sep xs acc = [acc ++ xs] := by
  intro xs
  induction xs with
  | nil => intro h acc; simp [splitChGo]
  | cons c cs ih =>
    intro h acc
    have hc : ¬(c = sep) := h c (by simp)
    simp only [splitChGo, if_neg hc, List.append_eq]
    rw [ih (fun d hd => h d (List.mem_cons_of_mem c hd)) (acc ++ [c])]
    simp

/-! ## Segmentation lemmas (C3, C10) -/

/-- On a run of non-header lines the parse loop leaves the section map and
the current section name alone and appends the stripped non-blank lines to
the buffer. -/
theorem foldl_parseLine_no_header :
    ∀ (lines : List String), (∀ l ∈ lines, isHeaderLine l = false) →
      ∀ (secs : List (String × String)) (cur : String) (buf : List String),
        lines.foldl parseLine ⟨secs, cur, buf⟩ =
          ⟨secs, cur, buf ++ nonblankStripped lines⟩ := by
  intro lines
  induction lines with
  | nil => intro h secs cur buf; simp [nonblankStripped]
  | cons l ls ih =>
    intro h secs cur buf
    have hl : startsWithHash (pyStrip l) = false := by
      have := h l (by simp)
      simpa [isHeaderLine] using this
    have hls : ∀ x ∈ ls, isHeaderLine x = false :=
      fun x hx => h x (List.mem_cons_of_mem l hx)
    simp only [List.foldl_cons]
    by_cases hb : pyStrip l = ""
    · have hstep : parseLine ⟨secs, cur, buf⟩ l = ⟨secs, cur, buf⟩ := by
        have hsw : startsWithHash ("") = false := by decide
        simp [parseLine, hl, hb, hsw]
      rw [hstep, ih hls]
      simp [nonblankStripped, hb]
    · have hstep : parseLine ⟨secs, cur, buf⟩ l =
          ⟨secs, cur, buf ++ [pyStrip l]⟩ := by
        simp [parseLine, hl, hb]
      rw [hstep, ih hls]
      simp [nonblankStripped, hb]

/-- C3 counterexample: the empty input has no header lines, yet
segmentation yields *no* section at all (not one section named
`introduction`); and for a headerless input with leading whitespace the
stored body is the line-wise stripped text, not the verbatim input. -/
theorem claim_C3_cex :
    (∀ l ∈ pySplitNL (""), isHeaderLine l = false) ∧
    parseSections ("") = [] ∧
    (∀ l ∈ pySplitNL ("  a"), isHeaderLine l = false) ∧
    parseSections ("  a") = [(("introduction"), ("a"))] ∧
    (("a") : String) ≠ ("  a") := by
  decide

/-- C3 amended: for every input with zero header lines and at least one
non-blank line, segmentation yields exactly the one section
`introduction`, whose body is the non-blank lines (each stripped of
surrounding whitespace) joined by newlines; an input whose lines are all
blank yields no section. -/
theorem claim_C3 (content : String)
    (hnohdr : ∀ l ∈ pySplitNL content, isHeaderLine l = false)
    (hne : ¬(nonblankStripped (pySplitNL content)).isEmpty = true) :
    parseSections content =
      [(("introduction"),
        pyStrip (pyJoinNL (nonblankStripped (pySplitNL content))))] := by
  unfold parseSections parseLines
  rw [foldl_parseLine_no_header (pySplitNL content) hnohdr [] ("introduction") []]
  simp only [List.nil_append]
  unfold flushBuf
  simp only [hne, if_false, Bool.not_eq_true] at *
  simp [hne, dictSet]

/-- Witness for C3 at a concrete headerless input. -/
theorem claim_C3_witness :
    parseSections ("hello\n\n world") =
      [(("introduction"),
        pyStrip (pyJoinNL (nonblankStripped (pySplitNL ("hello\n\n world")))))] :=
  claim_C3 ("hello\n\n world") (by decide) (by decide)

/-- C10: when two headers of one document normalize to the same canonical
name (`# Methods` and a later `# Methodology` both normalize to
`methodology`), the dict assignment of the segmenter replaces the earlier
body with the later one — the resulting map holds only the later section
body under that key, with no merging. -/
theorem claim_C10 (a b : String)
    (ha1 : ∀ c ∈ a.data, c ≠ '\n') (hb1 : ∀ c ∈ b.data, c ≠ '\n')
    (ha2 : ¬ pyStrip a = "") (hb2 : ¬ pyStrip b = "")
    (ha3 : isHeaderLine a = false) (hb3 : isHeaderLine b = false) :
    parseSections ((("# Methods\n") ++ a) ++ (("\n# Methodology\n") ++ b)) =
      [(("methodology"), pyStrip b)] := by
  have e1 : ("# Methods\n").data = ("# Methods").data ++ ('\n' :: []) := by decide
  have e2 : ("\n# Methodology\n").data =
      '\n' :: (("# Methodology").data ++ ('\n' :: [])) := by decide
  have hdata : ((("# Methods\n") ++ a) ++ (("\n# Methodology\n") ++ b)).data =
      ("# Methods").data ++ '\n' ::
        (a.data ++ '\n' :: (("# Methodology").data ++ '\n' :: b.data)) := by
    rw [String.data_append, String.data_append, String.data_append, e1, e2]
    simp
  have hlines : pySplitNL ((("# Methods\n") ++ a) ++ (("\n# Methodology\n") ++ b)) =
      [("# Methods"), a, ("# Methodology"), b] := by
    unfold pySplitNL
    rw [hdata,
      splitChGo_append_sep '\n' ("# Methods").data (by decide) _ [],
      splitChGo_append_sep '\n' a.data ha1 _ [],
      splitChGo_append_sep '\n' ("# Methodology").data (by decide) _ [],
      splitChGo_no_sep '\n' b.data hb1 []]
    simp
  have ha3s : startsWithHash (pyStrip a) = false := by
    simpa [isHeaderLine] using ha3
  have hb3s : startsWithHash (pyStrip b) = false := by
    simpa [isHeaderLine] using hb3
  have s1 : parseLine ⟨[], ("introduction"), []⟩ ("# Methods") =
      ⟨[], ("methodology"), []⟩ := by decide
  have s2 : parseLine ⟨[], ("methodology"), []⟩ a =
      ⟨[], ("methodology"), [pyStrip a]⟩ := by
    simp [parseLine, ha3s, ha2]
  have s3 : parseLine ⟨[], ("methodology"), [pyStrip a]⟩ ("# Methodology") =
      ⟨[(("methodology"), pyStrip a)], ("methodology"), []⟩ := by
    have hh : startsWithHash (pyStrip ("# Methodology")) = true := by decide
    have hc : normalizeSectionName
        (pyLower (pyStrip (lstripHash (pyStrip ("# Methodology"))))) =
        ("methodology") := by decide
    simp [parseLine, hh, hc, flushBuf, pyJoinNL, dictSet, pyStrip_idem]
  have s4 : parseLine ⟨[(("methodology"), pyStrip a)], ("methodology"), []⟩ b =
      ⟨[(("methodology"), pyStrip a)], ("methodology"), [pyStrip b]⟩ := by
    simp [parseLine, hb3s, hb2]
  unfold parseSections parseLines
  rw [hlines]
  simp only [List.foldl_cons, List.foldl_nil, s1, s2, s3, s4]
  unfold flushBuf
  simp [pyJoinNL, dictSet, pyStrip_idem]

/-- Witness for C10 at concrete bodies. -/
theorem claim_C10_witness :
    parseSections ((("# Methods\n") ++ ("A")) ++ (("\n# Methodology\n") ++ ("B"))) =
      [(("methodology"), pyStrip ("B"))] :=
  claim_C10 ("A") ("B") (by decide) (by decide) (by decide) (by decide)
    (by decide) (by decide)

/-! ## Normalization lemmas (C8) -/

/-- A successful association-list lookup yields a member pair. -/
theorem lookup_mem {β : Type} :
    ∀ (l : List (String × β)) (a : String) (b : β),
      l.lookup a = some b → (a, b) ∈ l := by
  intro l
  induction l with
  | nil => intro a b h; simp [List.lookup] at h
  | cons p t ih =>
    intro a b h
    obtain ⟨k, v⟩ := p
    by_cases hk : (a == k) = true
    · have hka : a = k := by simpa using hk
      rw [List.lookup, hk] at h
      cases h
      subst hka
      exact List.mem_cons_self _ _
    · rw [List.lookup, Bool.eq_false_iff.mpr hk] at h
      exact List.mem_cons_of_mem _ (ih a b h)

/-- A member pair makes the lookup succeed (with some value). -/
theorem lookup_isSome_of_mem {β : Type} :
    ∀ (l : List (String × β)) (a : String) (b : β),
      (a, b) ∈ l → l.lookup a ≠ none := by
  intro l
  induction l with
  | nil => intro a b h; simp at h
  | cons p t ih =>
    intro a b h
    obtain ⟨k, v⟩ := p
    by_cases hk : (a == k) = true
    · rw [List.lookup, hk]; simp
    · rw [List.lookup, Bool.eq_false_iff.mpr hk]
      rcases List.mem_cons.mp h with heq | hmem
      · cases heq
        simp at hk
      · exact ih a b hmem

/-- The underscore substitution never leaves a space in the string. -/
theorem underscores_no_space (s : String) : (' ') ∉ (underscores s).data := by
  unfold underscores
  intro hmem
  simp only [List.mem_map] at hmem
  obtain ⟨c, _, hc⟩ := hmem
  by_cases h : c = ' '
  · rw [if_pos h] at hc; cases hc
  · rw [if_neg h] at hc; exact h hc

/-- The underscore substitution fixes space-free character lists. -/
theorem map_underscore_id (l : List Char) (h : (' ') ∉ l) :
    l.map (fun c => if c = ' ' then '_' else c) = l := by
  induction l with
  | nil => rfl
  | cons c cs ih =>
    simp only [List.map_cons]
    have hc : ¬ c = ' ' := fun hh => h (hh ▸ List.mem_cons_self c cs)
    rw [if_neg hc, ih fun hm => h (List.mem_cons_of_mem c hm)]

/-- Strings without spaces are fixed by the underscore substitution. -/
theorem underscores_of_no_space (s : String) (h : (' ') ∉ s.data) :
    underscores s = s := by
  unfold underscores
  rw [map_underscore_id s.data h]

/-- Every canonical value of the synonym table is its own normalization. -/
theorem normalizationMap_values_fixed :
    ∀ p ∈ normalizationMap, normalizeSectionName p.2 = p.2 := by
  decide

/-- No key of the synonym table contains an underscore. -/
theorem normalizationMap_keys_no_underscore :
    ∀ p ∈ normalizationMap, ('_') ∉ p.1.data := by
  decide

/-- An underscore-substituted string with an original space never hits the
synonym table. -/
theorem lookup_underscores_none (s : String) (hsp : (' ') ∈ s.data) :
    normalizationMap.lookup (underscores s) = none := by
  cases h : normalizationMap.lookup (underscores s) with
  | none => rfl
  | some w =>
    have hmem := lookup_mem _ _ _ h
    have hnu : ('_') ∉ (underscores s).data :=
      normalizationMap_keys_no_underscore (underscores s, w) hmem
    have hu : ('_') ∈ (underscores s).data := by
      unfold underscores
      simp only [List.mem_map]
      exact ⟨' ', hsp, by simp⟩
    exact (hnu hu).elim

/-- Normalization is idempotent. -/
theorem normalize_idem (s : String) :
    normalizeSectionName (normalizeSectionName s) = normalizeSectionName s := by
  unfold normalizeSectionName
  cases h : normalizationMap.lookup s with
  | some v =>
    simp only [Option.getD_some]
    show normalizeSectionName v = v
    exact normalizationMap_values_fixed (s, v) (lookup_mem _ _ _ h)
  | none =>
    simp only [Option.getD_none]
    by_cases hsp : (' ') ∈ s.data
    · rw [lookup_underscores_none s hsp]
      simp only [Option.getD_none]
      exact underscores_of_no_space _ (underscores_no_space s)
    · rw [underscores_of_no_space s hsp, h]
      simp only [Option.getD_none]
      exact underscores_of_no_space s hsp

/-- C8: section-name normalization is idempotent on every header text; two
header texts mapped by the synonym table to the same canonical value
normalize identically; and whole-document segmentation treats the synonym
headers `# Methods` and `# Methodology` interchangeably for any rest of the
document. -/
theorem claim_C8 :
    (∀ s : String, normalizeSectionName (normalizeSectionName s) =
      normalizeSectionName s) ∧
    (∀ k1 k2 v : String, normalizationMap.lookup k1 = some v →
      normalizationMap.lookup k2 = some v →
      normalizeSectionName k1 = normalizeSectionName k2) ∧
    (∀ body : String, parseSections (("# Methods\n") ++ body) =
      parseSections (("# Methodology\n") ++ body)) := by
  refine ⟨normalize_idem, ?_, ?_⟩
  · intro k1 k2 v h1 h2
    unfold normalizeSectionName
    rw [h1, h2]
    simp
  · intro body
    have hd1 : (("# Methods\n") ++ body).data =
        ("# Methods").data ++ '\n' :: body.data := by
      rw [String.data_append,
        show ("# Methods\n").data = ("# Methods").data ++ ('\n' :: []) from by decide]
      simp
    have hd2 : (("# Methodology\n") ++ body).data =
        ("# Methodology").data ++ '\n' :: body.data := by
      rw [String.data_append,
        show ("# Methodology\n").data =
          ("# Methodology").data ++ ('\n' :: []) from by decide]
      simp
    have hl1 : pySplitNL (("# Methods\n") ++ body) =
        ("# Methods") :: pySplitNL body := by
      unfold pySplitNL
      rw [hd1, splitChGo_append_sep '\n' ("# Methods").data (by decide) _ []]
      simp
    have hl2 : pySplitNL (("# Methodology\n") ++ body) =
        ("# Methodology") :: pySplitNL body := by
      unfold pySplitNL
      rw [hd2, splitChGo_append_sep '\n' ("# Methodology").data (by decide) _ []]
      simp
    unfold parseSections parseLines
    rw [hl1, hl2]
    simp only [List.foldl_cons]
    rw [show parseLine ⟨[], ("introduction"), []⟩ ("# Methods") =
          ⟨[], ("methodology"), []⟩ from by decide,
        show parseLine ⟨[], ("introduction"), []⟩ ("# Methodology") =
          ⟨[], ("methodology"), []⟩ from by decide]

/-- Witness for C8 at the synonym pair of the claim: `methods` and
`methodology` share the canonical key. -/
theorem claim_C8_witness :
    normalizeSectionName ("methods") = normalizeSectionName ("methodology") :=
  claim_C8.2.1 ("methods") ("methodology") ("methodology") (by decide) (by decide)

/-! ## Equation scanner lemmas (C9) -/

/-- The finditer loop stops on empty input. -/
theorem scanF_nil {α : Type} (m : List Char → Option (α × List Char))
    (fuel pos : Nat) : scanF m fuel [] pos = [] := by
  cases fuel <;> rfl

/-- The inline pattern finds exactly the inner text of a pure
double-marker display equation (matching between the 2nd and the 4th
marker). -/
theorem scanInline_dollars (x : List Char) (hne : x.isEmpty = false)
    (hnd : ∀ c ∈ x, (c != '$') = true) (f pos : Nat) :
    scanF matchInlineAt (f + 3) ('$' :: '$' :: (x ++ ['$', '$'])) pos =
      [(pos + 1, x.length + 2, x)] := by
  have m1 : matchInlineAt ('$' :: '$' :: (x ++ ['$', '$'])) = none := by
    simp [matchInlineAt, List.takeWhile_cons]
  have ht : (x ++ ['$', '$']).takeWhile (fun c => c != '$') = x := by
    rw [takeWhile_append_all x hnd]
    simp [List.takeWhile_cons]
  have m2 : matchInlineAt ('$' :: (x ++ ['$', '$'])) = some (x, ['$']) := by
    simp only [matchInlineAt, ht, hne, Bool.false_eq_true, if_false,
      List.drop_left]
  have m3 : matchInlineAt (['$']) = none := by
    simp [matchInlineAt, List.takeWhile_nil]
  have hlen : ('$' :: (x ++ ['$', '$'])).length - (['$']).length = x.length + 2 := by
    simp
  simp only [scanF, m1, m2, m3, scanF_nil, hlen]

/-- The display pattern finds exactly the inner text of a pure
double-marker display equation. -/
theorem scanDisplay_dollars (x : List Char) (hne : x.isEmpty = false)
    (hnd : ∀ c ∈ x, (c != '$') = true) (f pos : Nat) :
    scanF matchDisplayAt (f + 1) ('$' :: '$' :: (x ++ ['$', '$'])) pos =
      [(pos, x.length + 4, x)] := by
  have ht : (x ++ ['$', '$']).takeWhile (fun c => c != '$') = x := by
    rw [takeWhile_append_all x hnd]
    simp [List.takeWhile_cons]
  have m1 : matchDisplayAt ('$' :: '$' :: (x ++ ['$', '$'])) = some (x, []) := by
    simp only [matchDisplayAt, ht, hne, Bool.false_eq_true, if_false,
      List.drop_left]
  have hlen : ('$' :: '$' :: (x ++ ['$', '$'])).length - ([] : List Char).length =
      x.length + 4 := by
    simp
  simp only [scanF, m1, scanF_nil, hlen]

/-- C9: a section that is one display equation `$$x$$` produces BOTH a
display equation and an inline equation with the same inner text (the
single-marker pattern matches between the inner markers), so the display
equation is double-counted: the section's equation list has two entries and
`total_equations` reports 2. -/
theorem claim_C9 (x : String) (hne : x.data.isEmpty = false)
    (hnd : ∀ c ∈ x.data, (c != '$') = true) :
    ((extractEquations ((("$$") ++ x) ++ ("$$"))).map
        (fun e => (e.type, e.content, e.id)) =
      [(("inline"), x, ("eq_inline_1")), (("display"), x, ("eq_display_1"))]) ∧
    ((calculateStatistics (applyFormatting
        [(("introduction"), (("$$") ++ x) ++ ("$$"))] ("ieee"))).total_equations = 2) := by
  have hdat : ((("$$") ++ x) ++ ("$$")).data = '$' :: '$' :: (x.data ++ ['$', '$']) := by
    rw [String.data_append, String.data_append,
      show ("$$" : String).data = ['$', '$'] from by decide]
    simp
  have hf1 : ('$' :: '$' :: (x.data ++ ['$', '$'])).length = (x.data.length + 1) + 3 := by
    simp
  have hf2 : ('$' :: '$' :: (x.data ++ ['$', '$'])).length = (x.data.length + 3) + 1 := by
    simp
  have heqs : extractEquations ((("$$") ++ x) ++ ("$$")) =
      [⟨("inline"), x, (1, x.data.length + 3), ("eq_inline_1")⟩,
       ⟨("display"), x, (0, x.data.length + 4), ("eq_display_1")⟩] := by
    unfold extractEquations scanInline scanDisplay
    rw [hdat, hf1, scanInline_dollars x.data hne hnd (x.data.length + 1) 0,
      hf1.symm, hf2, scanDisplay_dollars x.data hne hnd (x.data.length + 3) 0]
    have hx : (⟨x.data⟩ : String) = x := rfl
    simp [numberEqs, hx]
    exact ⟨⟨by omega, by decide⟩, by decide⟩
  constructor
  · rw [heqs]
    rfl
  · simp only [calculateStatistics, applyFormatting, applyTextFormatting,
      List.map_cons, List.map_nil]
    rw [heqs]
    rfl

/-- Witness for C9 at the inner text `x`. -/
theorem claim_C9_witness :
    ((extractEquations ((("$$") ++ ("x")) ++ ("$$"))).map
        (fun e => (e.type, e.content, e.id)) =
      [(("inline"), ("x"), ("eq_inline_1")), (("display"), ("x"), ("eq_display_1"))]) ∧
    ((calculateStatistics (applyFormatting
        [(("introduction"), (("$$") ++ ("x")) ++ ("$$"))] ("ieee"))).total_equations = 2) :=
  claim_C9 ("x") (by decide) (by decide)

/-! ## Citation extraction totality (C6) -/

/-- Digits are not Python whitespace. -/
theorem digit_not_space {c : Char} (h : c.isDigit = true) : isPySpace c = false := by
  cases hx : isPySpace c
  · rfl
  · unfold isPySpace at hx
    simp only [Bool.or_eq_true, beq_iff_eq] at hx
    rcases hx with ((((rfl | rfl) | rfl) | rfl) | rfl) | rfl <;>
      exact absurd h (by decide)

/-- Digits are not the comma separator. -/
theorem digit_ne_comma {c : Char} (h : c.isDigit = true) : c ≠ ',' := by
  intro hc
  subst hc
  exact absurd h (by decide)

/-- Python whitespace is not the comma separator. -/
theorem space_ne_comma {c : Char} (h : isPySpace c = true) : c ≠ ',' := by
  intro hc
  subst hc
  exact absurd h (by decide)

/-- Splitting walks over a separator-free prefix, accumulating it. -/
theorem splitChGo_shift (sep : Char) :
    ∀ (xs : List Char), (∀ c ∈ xs, c ≠ sep) → ∀ (ys acc : List Char),
      splitChGo sep (xs ++ ys) acc = splitChGo sep ys (acc ++ xs) := by
  intro xs
  induction xs with
  | nil => intro h ys acc; simp
  | cons c cs ih =>
    intro h ys acc
    have hc : ¬(c = sep) := h c (by simp)
    simp only [List.cons_append, splitChGo, if_neg hc, List.append_eq]
    rw [ih (fun d hd => h d (List.mem_cons_of_mem c hd)) ys (acc ++ [c])]
    simp

/-- Stripping a space prefix off a non-empty digit string leaves the digit
string. -/
theorem strip_space_digits (sp d : List Char)
    (hsp : ∀ c ∈ sp, isPySpace c = true) (hd : ∀ c ∈ d, c.isDigit = true)
    (hne : d ≠ []) : pyStripL (sp ++ d) = d := by
  unfold pyStripL trimLeft trimRight
  rw [dropWhile_append_all sp hsp d]
  have hdw : d.dropWhile isPySpace = d := by
    cases d with
    | nil => rfl
    | cons c cs =>
      rw [List.dropWhile_cons, if_neg]
      simp [digit_not_space (hd c (by simp))]
  rw [hdw]
  have hrev : d.reverse.dropWhile isPySpace = d.reverse := by
    cases hr : d.reverse with
    | nil => rfl
    | cons c cs =>
      have hcd : c ∈ d := by
        rw [← List.mem_reverse, hr]
        simp
      rw [List.dropWhile_cons, if_neg]
      simp [digit_not_space (hd c hcd)]
  rw [hrev, List.reverse_reverse]

/-- A space-prefixed non-empty digit run is a valid citation token. -/
theorem validTok_space_digits (sp d : List Char)
    (hsp : ∀ c ∈ sp, isPySpace c = true) (hd : ∀ c ∈ d, c.isDigit = true)
    (hne : d ≠ []) : validTok (sp ++ d) := by
  unfold validTok
  rw [strip_space_digits sp d hsp hd hne]
  exact ⟨hne, List.all_eq_true.mpr hd⟩

/-- Every token of the group-1 tail produced by `numGroups` (relative to a
valid accumulated first token) is a valid citation token. -/
theorem numGroups_tokens :
    ∀ (fuel : Nat) (l t r : List Char), numGroups fuel l = some (t, r) →
      ∀ acc : List Char, validTok acc → ∀ tok ∈ splitChGo ',' t acc, validTok tok := by
  intro fuel
  induction fuel with
  | zero =>
    intro l t r h acc hacc tok htok
    cases l with
    | nil => exact absurd h (by simp [numGroups])
    | cons c rest =>
      rw [numGroups] at h
      split at h
      · cases h
        simp only [splitChGo, List.mem_singleton] at htok
        subst htok
        exact hacc
      · exact absurd h (by simp)
  | succ f ih =>
    intro l t r h acc hacc tok htok
    cases l with
    | nil => exact absurd h (by simp [numGroups])
    | cons c rest =>
      rw [numGroups] at h
      split at h
      · cases h
        simp only [splitChGo, List.mem_singleton] at htok
        subst htok
        exact hacc
      · split at h
        · next hc2 =>
          simp only at h
          split at h
          · exact absurd h (by simp)
          · next hdne =>
            split at h
            · next tail after hng =>
              cases h
              subst hc2
              have hsp : ∀ c ∈ rest.takeWhile isPySpace, isPySpace c = true :=
                fun c hc => List.mem_takeWhile_imp hc
              have hdig : ∀ c ∈ (rest.drop (rest.takeWhile isPySpace).length).takeWhile
                  Char.isDigit, c.isDigit = true :=
                fun c hc => List.mem_takeWhile_imp hc
              have hdnil : (rest.drop (rest.takeWhile isPySpace).length).takeWhile
                  Char.isDigit ≠ [] := by
                intro hn
                rw [hn] at hdne
                exact hdne rfl
              simp only [splitChGo, if_pos rfl] at htok ⊢
              rcases List.mem_cons.mp htok with rfl | htok2
              · exact hacc
              · rw [show (rest.takeWhile isPySpace) ++
                    ((rest.drop (rest.takeWhile isPySpace).length).takeWhile Char.isDigit
                      ++ tail) =
                    ((rest.takeWhile isPySpace) ++
                      (rest.drop (rest.takeWhile isPySpace).length).takeWhile Char.isDigit)
                      ++ tail from by simp,
                  splitChGo_shift ',' _
                    (fun c hc => by
                      rcases List.mem_append.mp hc with hc | hc
                      · exact space_ne_comma (hsp c hc)
                      · exact digit_ne_comma (hdig c hc)) tail []] at htok2
                simp only [List.nil_append] at htok2
                exact ih _ _ _ hng _
                  (validTok_space_digits _ _ hsp hdig hdnil) tok htok2
            · exact absurd h (by simp)
        · exact absurd h (by simp)

/-- Every token of the bracket's inner text produced by `matchNumAt` is a
valid citation token: the comprehension's `int(...)` never raises. -/
theorem matchNumAt_tokens :
    ∀ (l : List Char) (a : List Char × List Char), matchNumAt l = some a →
      ∀ tok ∈ splitChGo ',' a.1 [], validTok tok := by
  intro l a h tok htok
  unfold matchNumAt at h
  split at h
  · next rest =>
    simp only at h
    split at h
    · exact absurd h (by simp)
    · next hdne =>
      split at h
      · next tail after hng =>
        cases h
        have hdig : ∀ c ∈ rest.takeWhile Char.isDigit, c.isDigit = true :=
          fun c hc => List.mem_takeWhile_imp hc
        have hdnil : rest.takeWhile Char.isDigit ≠ [] := by
          intro hn
          rw [hn] at hdne
          exact hdne rfl
        rw [splitChGo_shift ',' (rest.takeWhile Char.isDigit)
            (fun c hc => digit_ne_comma (hdig c hc)) tail []] at htok
        simp only [List.nil_append] at htok
        exact numGroups_tokens _ _ _ _ hng _
          (validTok_space_digits [] _ (by simp) hdig hdnil) tok htok
      · exact absurd h (by simp)
  · exact absurd h (by simp)

/-- Any property guaranteed by the matcher holds of every payload the
finditer loop emits. -/
theorem scanF_payload {α : Type} (m : List Char → Option (α × List Char))
    (P : α → Prop) (hm : ∀ (l : List Char) (a : α × List Char), m l = some a → P a.1) :
    ∀ (fuel : Nat) (l : List Char) (pos : Nat), ∀ x ∈ scanF m fuel l pos, P x.2.2 := by
  intro fuel
  induction fuel with
  | zero => intro l pos x hx; exact absurd hx (by simp [scanF])
  | succ f ih =>
    intro l pos x hx
    cases l with
    | nil => exact absurd hx (by simp [scanF])
    | cons c cs =>
      rw [scanF] at hx
      cases hm2 : m (c :: cs) with
      | some ar =>
        rw [hm2] at hx
        simp only [List.mem_cons] at hx
        rcases hx with rfl | hx
        · exact hm (c :: cs) ar hm2
        · exact ih ar.2 _ x hx
      | none =>
        rw [hm2] at hx
        exact ih cs (pos + 1) x hx

/-- Mapping a fallible function that succeeds on every element equals the
pure map. -/
theorem mapM_ok {α β : Type} (l : List α) (f : α → Except String β) (g : α → β)
    (h : ∀ a ∈ l, f a = Except.ok (g a)) : l.mapM f = Except.ok (l.map g) := by
  induction l with
  | nil => rfl
  | cons a l ih =>
    rw [List.mapM_cons, h a (by simp),
      ih fun b hb => h b (List.mem_cons_of_mem a hb)]
    rfl

/-- The faithful token comprehension succeeds and agrees with the total one
whenever every token is valid. -/
theorem parseNumbersE_ok (inner : List Char)
    (h : ∀ tok ∈ splitChGo ',' inner [], validTok tok) :
    parseNumbersE inner = Except.ok (parseNumbers inner) := by
  unfold parseNumbersE parseNumbers
  apply mapM_ok
  intro tok htok
  have hv := h tok htok
  have hsome : parseIntDigits (pyStripL tok) =
      some (Int.ofNat (digitsToNat (pyStripL tok))) := by
    unfold parseIntDigits
    rw [if_pos ⟨hv.1, hv.2⟩]
  rw [hsome]
  rfl

/-- The year group of every author-year match is a non-empty digit string:
its `int(...)` never raises. -/
theorem matchAY_year :
    ∀ (l : List Char) (a : (List Char × List Char) × List Char),
      matchAYAt l = some a → a.1.2 ≠ [] ∧ a.1.2.all Char.isDigit = true := by
  intro l a h
  unfold matchAYAt at h
  split at h
  · next r1 =>
    simp only at h
    split at h
    · exact absurd h (by simp)
    · split at h
      · exact absurd h (by simp)
      · split at h
        · next d1 d2 d3 d4 r8 hdrop =>
          split at h
          · next hdig =>
            cases h
            simp only [Bool.and_eq_true] at hdig
            obtain ⟨⟨⟨hg1, hg2⟩, hg3⟩, hg4⟩ := hdig
            refine ⟨by simp, ?_⟩
            simp [List.all_cons, hg1, hg2, hg3, hg4]
          · exact absurd h (by simp)
        · exact absurd h (by simp)
  · exact absurd h (by simp)

/-- C6: citation extraction is total — the faithful fallible rendering of
`_extract_citations` (where each `int(...)` may raise) always returns
`ok` and agrees with the total function, because every bracketed span the
numeric pattern matches carries only well-formed integer tokens; a span
with malformed inner content (such as `[12a]` or the outer brackets of
`[3, [4]]`) is simply not matched. -/
theorem claim_C6 :
    (∀ content : String,
      extractCitationsE content = Except.ok (extractCitations content)) ∧
    (extractCitations ("see [12a] and [3, [4]] x") =
      [Citation.numeric ("[4]") [4] (18, 21)]) := by
  constructor
  · intro s
    unfold extractCitationsE extractCitations
    rw [mapM_ok (scanNumeric s) _
        (fun m => Citation.numeric (matchText s m.1 m.2.1) (parseNumbers m.2.2)
          (m.1, m.1 + m.2.1))
        (fun m hm => by
          have hv := scanF_payload matchNumAt
            (fun inner => ∀ tok ∈ splitChGo ',' inner [], validTok tok)
            matchNumAt_tokens s.data.length s.data 0 m hm
          rw [show (do
              let ns ← parseNumbersE m.2.2
              pure (Citation.numeric (matchText s m.1 m.2.1) ns (m.1, m.1 + m.2.1))
              : Except String Citation) =
            Except.ok (Citation.numeric (matchText s m.1 m.2.1)
              (parseNumbers m.2.2) (m.1, m.1 + m.2.1)) from by
            rw [show (parseNumbersE m.2.2) = Except.ok (parseNumbers m.2.2) from
              parseNumbersE_ok m.2.2 hv]
            rfl]),
      mapM_ok (scanAY s) _
        (fun m => Citation.authorYear (matchText s m.1 m.2.1) (⟨m.2.2.1⟩ : String)
          ((parseIntDigits m.2.2.2).getD 0) (m.1, m.1 + m.2.1))
        (fun m hm => by
          have hy := scanF_payload matchAYAt
            (fun a => a.2 ≠ [] ∧ a.2.all Char.isDigit = true)
            matchAY_year s.data.length s.data 0 m hm
          have hsome : parseIntDigits m.2.2.2 =
              some (Int.ofNat (digitsToNat m.2.2.2)) := by
            unfold parseIntDigits
            rw [if_pos ⟨hy.1, hy.2⟩]
          simp only [hsome]
          rfl)]
    rfl
  · decide

end TemplateProc
